import Mathlib

/-!
Verification of the GEO / PubMed / clinical-trial pipeline implemented in
`src/app.py`.  The Python functions are shallowly embedded: HTTP calls become
oracle function parameters, parsed HTML pages become structures holding the
fields the code reads (anchor hrefs, div classes and texts, the citation
span text, the full page text), regular-expression searches become explicit
left-to-right scanners over character lists (ASCII, which is all the mined
identifiers use), and pandas frames become lists of records.
-/

/-! ## Character and scanning primitives -/

/-- Word character for the regex class used in `re.search(r"\d{4} \w{3} \d{1,2}")`. -/
def isWordChar (c : Char) : Bool := c.isAlphanum || c == '_'

/-- Leftmost-match search: `re.search` tries the pattern matcher at every
position of the text, left to right (including the empty suffix). -/
def scanFirst {α : Type} (f : List Char → Option α) : List Char → Option α
  | [] => f []
  | c :: cs =>
    match f (c :: cs) with
    | some m => some m
    | none => scanFirst f cs

/-- Matcher for a fixed literal at the current position (used for the Python
substring test `pat in s`). -/
def matchSubAt (pat : List Char) (l : List Char) : Option Unit :=
  if l.take pat.length == pat then some () else none

/-- Python's `pat in s` substring containment. -/
def strContains (s pat : String) : Bool :=
  (scanFirst (matchSubAt pat.toList) s.toList).isSome

def digitVal (c : Char) : Nat := c.toNat - 48

def digitsToNat (l : List Char) : Nat := l.foldl (fun a c => a * 10 + digitVal c) 0

/-! ## Calendar dates (Python `datetime.date`) -/

structure Date where
  y : Nat
  m : Nat
  d : Nat
deriving DecidableEq

/-- Python `date` comparison: lexicographic on (year, month, day). -/
def dateLE (a b : Date) : Bool :=
  Nat.blt a.y b.y ||
    (a.y == b.y && (Nat.blt a.m b.m || (a.m == b.m && Nat.ble a.d b.d)))

def isLeap (yr : Nat) : Bool := yr % 4 == 0 && (yr % 100 != 0 || yr % 400 == 0)

def daysInMonth (yr mo : Nat) : Nat :=
  if mo == 2 then (if isLeap yr then 29 else 28)
  else if mo == 4 || mo == 6 || mo == 9 || mo == 11 then 30
  else 31

/-- The validity check `datetime.strptime` performs before building a date
(proleptic Gregorian; years 1..9999, four digits keep the year below 10000). -/
def mkDate (yr mo dy : Nat) : Option Date :=
  if Nat.ble 1 yr && Nat.ble 1 dy && Nat.ble dy (daysInMonth yr mo) then
    some ⟨yr, mo, dy⟩
  else none

/-- Case-insensitive month abbreviation lookup, as `strptime`'s `%b` does. -/
def month3L (l : List Char) : Option Nat :=
  let s := String.mk (l.map Char.toLower)
  if s == "jan" then some 1 else if s == "feb" then some 2
  else if s == "mar" then some 3 else if s == "apr" then some 4
  else if s == "may" then some 5 else if s == "jun" then some 6
  else if s == "jul" then some 7 else if s == "aug" then some 8
  else if s == "sep" then some 9 else if s == "oct" then some 10
  else if s == "nov" then some 11 else if s == "dec" then some 12
  else none

/-! ## The regex matchers of `app.py` -/

/-- Matcher for `GSE\d{1,10}` at the current position (greedy, at most ten
digits), returning the matched text. -/
def matchGSEAt (l : List Char) : Option (List Char) :=
  if l.take 3 == [ 'G' , 'S' , 'E' ] then
    let ds := ((l.drop 3).takeWhile Char.isDigit).take 10
    if ds.isEmpty then none else some (l.take 3 ++ ds)
  else none

/-- The `re.findall(r"GSE\d{1,10}", data)` of `fetch_geo_accession_details`.
A GSE match consists of `GSE` plus digits, so no match can begin strictly
inside another; scanning every position therefore finds exactly the
non-overlapping matches `findall` returns. -/
def scanAllGSE : List Char → List String
  | [] => []
  | c :: cs =>
    match matchGSEAt (c :: cs) with
    | some m => String.mk m :: scanAllGSE cs
    | none => scanAllGSE cs

/-- Matcher for `NCT\d{8}` at the current position: exactly eight digits must
follow the prefix. -/
def matchNCTAt (l : List Char) : Option (List Char) :=
  if l.take 3 == [ 'N' , 'C' , 'T' ] && ((l.drop 3).take 8).length == 8
      && ((l.drop 3).take 8).all Char.isDigit then
    some (l.take 3 ++ (l.drop 3).take 8)
  else none

/-- `re.search(r"NCT\d{8}", text)`, the trial-id pattern of
`search_nct_in_abstract`. -/
def findNCTStr (s : String) : Option String :=
  (scanFirst matchNCTAt s.toList).map String.mk

/-- Matcher for `pubmed/(\d+)` at the current position, returning group 1. -/
def matchPubmedAt (l : List Char) : Option (List Char) :=
  if l.take 7 == [ 'p' , 'u' , 'b' , 'm' , 'e' , 'd' , '/' ] then
    let ds := (l.drop 7).takeWhile Char.isDigit
    if ds.isEmpty then none else some ds
  else none

/-- `re.search(r"pubmed/(\d+)", href).group(1)` of `fetch_pubmed_data`. -/
def findPubmedNum (s : String) : Option String :=
  (scanFirst matchPubmedAt s.toList).map String.mk

/-- The day part `\d{1,2}` (greedy: two digits when available, else one). -/
def dayDigits (l : List Char) : Option (List Char) :=
  let ds := (l.take 2).takeWhile Char.isDigit
  if ds.isEmpty then none else some ds

/-- Matcher for `\d{4} \w{3} \d{1,2}` at the current position of the citation
text, returning the matched text. -/
def matchYMDAt (l : List Char) : Option (List Char) :=
  let yr := l.take 4
  let wd := (l.drop 5).take 3
  if yr.length == 4 && yr.all Char.isDigit && (l.drop 4).take 1 == [ ' ' ]
      && wd.length == 3 && wd.all isWordChar && (l.drop 8).take 1 == [ ' ' ] then
    (dayDigits (l.drop 9)).map fun ds => yr ++ [ ' ' ] ++ wd ++ [ ' ' ] ++ ds
  else none

/-- Matcher for `\d{4}` at the current position. -/
def matchY4At (l : List Char) : Option (List Char) :=
  if (l.take 4).length == 4 && (l.take 4).all Char.isDigit then some (l.take 4)
  else none

/-! ## `strptime` on the matched fragments -/

/-- Embedding of `datetime.strptime(s, "%Y %b %d")` on the shapes the two
citation regexes can produce: four year digits, a space, a three-character
month abbreviation, a space, and one or two day digits; any other shape (in
particular a bare four-digit year) raises, i.e. yields `none`. -/
def parseYMDL (l : List Char) : Option Date :=
  if (l.length == 10 || l.length == 11) && (l.take 4).all Char.isDigit
      && (l.drop 4).take 1 == [ ' ' ] && (l.drop 8).take 1 == [ ' ' ]
      && (l.drop 9).all Char.isDigit && !(l.drop 9).isEmpty then
    match month3L ((l.drop 5).take 3) with
    | some mo => mkDate (digitsToNat (l.take 4)) mo (digitsToNat (l.drop 9))
    | none => none
  else none

/-- Embedding of `datetime.strptime(s, "%Y")`: exactly four digits, year at
least 1; month and day default to January 1st. -/
def parseY4L (l : List Char) : Option Date :=
  if l.length == 4 && l.all Char.isDigit && Nat.ble 1 (digitsToNat l) then
    some ⟨digitsToNat l, 1, 1⟩
  else none

/-! ## Stage 1: Accession Discovery Engine (`fetch_all_geo_accessions`) -/

/-- The accession set mined from one `efetch` text blob:
`re.findall(r"GSE\d{1,10}", data)` collected into the Python set
`accession_numbers` of `fetch_geo_accession_details`. -/
def extractAccessions (data : String) : Finset String :=
  (scanAllGSE data.toList).toFinset

/-- `fetch_geo_accession_details`, with the `Entrez.efetch` response text an
oracle argument: an empty id list skips the fetch and yields the empty set. -/
def fetch_geo_accession_details (efetchData : String) (idList : List String) :
    Finset String :=
  if idList.isEmpty then ∅ else extractAccessions efetchData

/-- One `all_accessions.update(accessions)` step of the discovery loop. -/
def updateAccessions (s : Finset String) (data : String) : Finset String :=
  s ∪ extractAccessions data

/-- The pagination loop of `fetch_all_geo_accessions`, instrumented with its
trace.  `search o` is the `Entrez.esearch` oracle at offset `o`, returning the
page's record ids and the reported total count; `efetch` the record-fetch
oracle.  The result is `(accession set, offsets whose page was fetched,
number of search calls issued)`; `none` means the fuel ran out before the
loop's two exit conditions (`not geo_ids` / `retstart >= total_count`) fired. -/
def fetch_all_geo_accessions (search : Nat → List String × Nat)
    (efetch : List String → String) (maxResults : Nat) :
    Nat → Nat → Finset String → Option (Finset String × List Nat × Nat)
  | 0, _, _ => none
  | fuel + 1, retstart, acc =>
    match search retstart with
    | (geoIds, total) =>
      if geoIds.isEmpty then some (acc, [], 1)
      else
        let acc2 := acc ∪ fetch_geo_accession_details (efetch geoIds) geoIds
        if total ≤ retstart + maxResults then some (acc2, [retstart], 1)
        else
          match fetch_all_geo_accessions search efetch maxResults fuel
              (retstart + maxResults) acc2 with
          | none => none
          | some (accF, offs, calls) => some (accF, retstart :: offs, calls + 1)

/-! ## Stage 2: Cross-Reference Harvester (`fetch_pubmed_ids_from_geo`) -/

/-- Outcome of `requests.get` on a GEO accession page: an HTTP response with
a status code and the `pubmed`-bearing hrefs of the page's anchors, or a
raised exception (connection error, timeout). -/
inductive FetchOutcome where
  | resp (status : Nat) (hrefs : List String)
  | exc
deriving DecidableEq

structure CrossRefRecord where
  accession : String
  pubmedID : String
deriving DecidableEq

/-- The link-mining loop of `fetch_pubmed_data`: for each anchor href
containing `pubmed`, the trailing number of the first `pubmed/(\d+)` match. -/
def extractPubmedIds (hrefs : List String) : List String :=
  hrefs.foldr
    (fun href acc =>
      if strContains href "pubmed" then
        match findPubmedNum href with
        | some n => n :: acc
        | none => acc
      else acc)
    []

/-- `fetch_pubmed_data(accession)`: the worker body.  The code calls
`requests.get` without any exception handling and never checks the status
code, so a raised exception propagates (`Except.error`) while any response,
2xx or not, is parsed. -/
def fetch_pubmed_data (httpGet : String → FetchOutcome) (accession : String) :
    Except Unit CrossRefRecord :=
  match httpGet accession with
  | .exc => .error ()
  | .resp _ hrefs =>
    .ok ⟨accession, String.intercalate ", " (extractPubmedIds hrefs)⟩

/-- `fetch_pubmed_ids_from_geo`: `executor.map(fetch_pubmed_data, accession_list)`
yields the workers' results in submission (input) order, and re-raises a
worker's exception when its slot is reached, aborting the collection loop. -/
def fetch_pubmed_ids_from_geo (httpGet : String → FetchOutcome) :
    List String → Except Unit (List CrossRefRecord)
  | [] => .ok []
  | a :: rest =>
    match fetch_pubmed_data httpGet a with
    | .error e => .error e
    | .ok r =>
      match fetch_pubmed_ids_from_geo httpGet rest with
      | .error e => .error e
      | .ok rs => .ok (r :: rs)

/-- The record a worker produces once its `requests.get` returned a response
(what `fetch_pubmed_data` appends when nothing is raised). -/
def okRecordOf (httpGet : String → FetchOutcome) (accession : String) :
    CrossRefRecord :=
  match httpGet accession with
  | .resp _ hrefs =>
    ⟨accession, String.intercalate ", " (extractPubmedIds hrefs)⟩
  | .exc => ⟨accession, ""⟩

/-! ## Stage 3: Detail Extractor (`process_pubmed_ids` and its helpers) -/

/-- One `div` of a PubMed abstract page as `BeautifulSoup` sees it: its
class attribute and its extracted text. -/
structure Division where
  cls : String
  txt : String
deriving DecidableEq

/-- A fetched PubMed abstract page, holding exactly what the extractor reads:
the page's divs in document order, the text of the first
`span.cit` (the citation fragment) when present, and the full page text. -/
structure PubmedHtml where
  divs : List Division
  citTxt : Option String
  fullTxt : String

/-- The loop over one `find_all('div', class_=...)` result: the first div in
document order whose class contains the marker and whose text has an
`NCT\d{8}` match decides the result. -/
def firstNctIn : List Division → Option String
  | [] => none
  | d :: ds =>
    match findNCTStr d.txt with
    | some m => some m
    | none => firstNctIn ds

/-- `search_nct_in_abstract`: abstract-content divs, then trial-registration
divs, then the full page text. -/
def search_nct_in_abstract (h : PubmedHtml) : Option String :=
  match firstNctIn (h.divs.filter fun d => strContains d.cls "abstract-content") with
  | some m => some m
  | none =>
    match firstNctIn (h.divs.filter fun d => strContains d.cls "trial-registration") with
    | some m => some m
    | none => findNCTStr h.fullTxt

/-- One tier of the spec's rule chain: the first marker-bearing div that
yields a trial-id match. -/
def tierSearch (marker : String) (divs : List Division) : Option String :=
  divs.findSome? fun d => if strContains d.cls marker then findNCTStr d.txt else none

/-- Modelled from the spec: the three-tier search as a prioritized
first-match-wins rule chain over the same sources (structured
abstract-content regions, then trial-registration regions, then the full
page text). -/
def specNctChain (h : PubmedHtml) : Option String :=
  match tierSearch "abstract-content" h.divs with
  | some m => some m
  | none =>
    match tierSearch "trial-registration" h.divs with
    | some m => some m
    | none => findNCTStr h.fullTxt

/-- `get_publication_date`: on the `span.cit` text, search
`\d{4} \w{3} \d{1,2}` or else `\d{4}`, then `strptime` the match as
`"%Y %b %d"`, falling back to `"%Y"`. -/
def get_publication_date (h : PubmedHtml) : Option Date :=
  match h.citTxt with
  | none => none
  | some t =>
    match (scanFirst matchYMDAt t.toList).orElse fun _ => scanFirst matchY4At t.toList with
    | none => none
    | some m =>
      match parseYMDL m with
      | some dt => some dt
      | none => parseY4L m

/-- Modelled from the spec: match a year-month-day pattern first, falling
back to a bare four-digit year; parse the former as a full calendar date and
the latter as January 1st of that year; absent when the fragment is missing
or neither pattern matches. -/
def pubDateSpec (h : PubmedHtml) : Option Date :=
  match h.citTxt with
  | none => none
  | some t =>
    match scanFirst matchYMDAt t.toList with
    | some m => parseYMDL m
    | none =>
      match scanFirst matchY4At t.toList with
      | some m =>
        if Nat.ble 1 (digitsToNat m) then some ⟨digitsToNat m, 1, 1⟩ else none
      | none => none

/-- The `NCT Number` field written by `process_pubmed_ids` for a fetched
page: the search result, or the sentinel when the search returns nothing. -/
def nctFieldOf (h : PubmedHtml) : String :=
  match search_nct_in_abstract h with
  | some s => s
  | none => "NCT Not Found"

structure DetailRecord where
  pid : String
  nct : String
  pubDate : Option Date
deriving DecidableEq

/-- `entry['Pubmed_ID'].split(',')` followed by `.strip()` on each part. -/
def splitStrip (s : String) : List String :=
  ((s.split fun c => c == ',').map String.trim)

/-- The id-collection loop of `process_pubmed_ids`: the split ids of every
entry whose `Pubmed_ID` string is non-empty, in order of appearance. -/
def collectPubmedIds (metadata : List CrossRefRecord) : List String :=
  metadata.foldl
    (fun acc e => if e.pubmedID == "" then acc else acc ++ splitStrip e.pubmedID)
    []

/-- Sorted insertion keeping the list strictly ascending and duplicate-free. -/
def insortNodup (x : String) : List String → List String
  | [] => [x]
  | y :: ys =>
    if x = y then y :: ys
    else if x < y then x :: y :: ys
    else y :: insortNodup x ys

/-- Python's `sorted(list(pubmed_ids))` where `pubmed_ids` is a set: the
strictly ascending enumeration of the distinct collected ids. -/
def sortedDedup (l : List String) : List String :=
  l.foldl (fun acc x => insortNodup x acc) []

/-- `process_pubmed_ids`, with the abstract-page fetch an oracle:
`fetch_pubmed_html` returns `None` (here `none`) when `requests.get` raises
or `raise_for_status` fires, and the loop then records the sentinel trial id
with an absent date and continues. -/
def process_pubmed_ids (fetch : String → Option PubmedHtml)
    (metadata : List CrossRefRecord) : List DetailRecord :=
  (sortedDedup (collectPubmedIds metadata)).map fun pid =>
    match fetch pid with
    | some h => ⟨pid, nctFieldOf h, get_publication_date h⟩
    | none => ⟨pid, "NCT Not Found", none⟩

/-! ## Stage 4: Date-Range Filter (`filter_nct`) -/

/-- One cell of the frame's `Publication_Date` column: a Python `date`, the
Python `None`, or the pandas `NaT` missing marker (`None` and `NaT` are
distinct Python objects). -/
inductive DateCell where
  | known (d : Date)
  | pyNone
  | naT
deriving DecidableEq

/-- One row of the frame `filter_nct` receives. -/
structure NctRow where
  nct : String
  pubDate : DateCell
deriving DecidableEq

/-- `pd.to_datetime(col, errors='coerce').dt.date` on one cell: a date stays
itself, `None` (and anything unparseable) becomes `NaT`. -/
def coerceCell : DateCell → DateCell
  | .known d => .known d
  | .pyNone => .naT
  | .naT => .naT

def coerceRow (r : NctRow) : NctRow := ⟨r.nct, coerceCell r.pubDate⟩

/-- `Series.notna()` on one cell. -/
def cellNotna : DateCell → Bool
  | .known _ => true
  | .pyNone => false
  | .naT => false

/-- `cell >= d` in pandas: comparisons against `NaT` are false. -/
def cellGE (c : DateCell) (d : Date) : Bool :=
  match c with
  | .known x => dateLE d x
  | _ => false

/-- `cell <= d` in pandas: comparisons against `NaT` are false. -/
def cellLE (c : DateCell) (d : Date) : Bool :=
  match c with
  | .known x => dateLE x d
  | _ => false

/-- `Series.str.match(r'^NCT\d+$', na=False)` on one `NCT Number` value:
anchored full match of `NCT` followed by one or more digits. -/
def nctRegexMatch (s : String) : Bool :=
  s.toList.take 3 == [ 'N' , 'C' , 'T' ] && !(s.toList.drop 3).isEmpty
    && (s.toList.drop 3).all Char.isDigit

/-- The row mask of `filter_nct`: date present, within the inclusive range,
and trial id matching the pattern. -/
def maskRow (s e : Date) (r : NctRow) : Bool :=
  cellNotna r.pubDate && cellGE r.pubDate s && cellLE r.pubDate e
    && nctRegexMatch r.nct

/-- `filter_nct(df, start_date, end_date)`.  The first component is the
caller's frame as the function leaves it — the assignment
`df["Publication_Date"] = pd.to_datetime(...)` rewrites the column in place
before the mask is built — and the second is the returned filtered frame. -/
def filter_nct (df : List NctRow) (s e : Date) : List NctRow × List NctRow :=
  let df2 := df.map coerceRow
  (df2, df2.filter (maskRow s e))

/-- The strict prefix-plus-eight-digits trial-id pattern of the spec. -/
def isNCT8 (s : String) : Bool :=
  s.toList.take 3 == [ 'N' , 'C' , 'T' ] && (s.toList.drop 3).length == 8
    && (s.toList.drop 3).all Char.isDigit

/-- A well-formed `DetailRecord` row as stage 3 produces it: the trial id is
the sentinel or a strict `NCT`+8-digit id, and the date cell is a date or
the Python `None` (never already `NaT`). -/
def detailWf (r : NctRow) : Prop :=
  (r.nct = "NCT Not Found" ∨ isNCT8 r.nct = true) ∧ r.pubDate ≠ DateCell.naT

/-- The filter predicate of the spec's contract: date present and inside
`[s, e]`, trial id matching the strict pattern. -/
def specFilterPred (s e : Date) (r : NctRow) : Bool :=
  match r.pubDate with
  | .known d => dateLE s d && dateLE d e && isNCT8 r.nct
  | _ => false

/-! ## Concrete oracles and rows used to instantiate the theorems -/

/-- An HTTP oracle whose every call raises (connection error / timeout). -/
def excGet : String → FetchOutcome := fun _ => FetchOutcome.exc

/-- An HTTP oracle answering every call with an empty 404 page. -/
def soft404Get : String → FetchOutcome := fun _ => FetchOutcome.resp 404 []

/-- An HTTP oracle answering every call with a page holding one PubMed link. -/
def okLinkGet : String → FetchOutcome :=
  fun _ => FetchOutcome.resp 200 ["https://x/pubmed/55"]

/-- A search oracle reporting total count 25 and pages of size at most 10. -/
def geoSearch25 (o : Nat) : List String × Nat :=
  (if o < 25 then (List.range (min 10 (25 - o))).map toString else [], 25)

def geoEfetchEmpty : List String → String := fun _ => ""

def wfRow1 : NctRow := ⟨"NCT12345678", DateCell.known ⟨2022, 3, 1⟩⟩

def mutRow : NctRow := ⟨"NCT Not Found", DateCell.pyNone⟩

/-! ## Helper lemmas -/

theorem scanFirst_some {α : Type} {f : List Char → Option α} :
    ∀ {l : List Char} {m : α}, scanFirst f l = some m → ∃ l2, f l2 = some m := by
  intro l
  induction l with
  | nil => exact fun h => ⟨[], h⟩
  | cons c cs ih =>
    intro m h
    simp only [scanFirst] at h
    cases hf : f (c :: cs) with
    | some v => rw [hf] at h; exact ⟨c :: cs, hf.trans h⟩
    | none => rw [hf] at h; exact ih h

theorem dayDigits_some {l ds : List Char} (h : dayDigits l = some ds) :
    1 ≤ ds.length := by
  simp only [dayDigits] at h
  split at h
  · exact absurd h (by simp)
  · rename_i hne
    cases h
    simp only [List.isEmpty_iff] at hne
    exact List.length_pos.mpr hne

theorem matchYMDAt_some {l m : List Char} (h : matchYMDAt l = some m) :
    10 ≤ m.length := by
  simp only [matchYMDAt] at h
  split at h
  · rename_i hc
    simp only [Bool.and_eq_true, beq_iff_eq] at hc
    rcases Option.map_eq_some'.mp h with ⟨ds, hds, rfl⟩
    have h3 := dayDigits_some hds
    simp [hc.1.1.1.1.1, hc.1.1.2]
    omega
  · exact absurd h (by simp)

theorem matchY4At_some {l m : List Char} (h : matchY4At l = some m) :
    m.length = 4 ∧ m.all Char.isDigit = true := by
  simp only [matchY4At] at h
  split at h
  · rename_i hc
    cases h
    simp only [Bool.and_eq_true, beq_iff_eq] at hc
    exact hc
  · exact absurd h (by simp)

theorem parseY4L_of_long {l : List Char} (h : 10 ≤ l.length) :
    parseY4L l = none := by
  have h4 : (l.length == 4) = false := by simp; omega
  simp [parseY4L, h4]

theorem parseYMDL_of_len4 {l : List Char} (h : l.length = 4) :
    parseYMDL l = none := by
  have h10 : (l.length == 10) = false := by simp; omega
  have h11 : (l.length == 11) = false := by simp; omega
  simp [parseYMDL, h10, h11]

theorem mem_insortNodup (a x : String) :
    ∀ l : List String, a ∈ insortNodup x l ↔ a = x ∨ a ∈ l := by
  intro l
  induction l with
  | nil => simp [insortNodup]
  | cons y ys ih =>
    simp only [insortNodup]
    split
    · rename_i hxy
      subst hxy
      simp only [List.mem_cons]
      tauto
    · split
      · simp [List.mem_cons, or_assoc]
      · simp only [List.mem_cons, ih]
        tauto

theorem pairwise_insortNodup (x : String) :
    ∀ l : List String, l.Pairwise (· < ·) → (insortNodup x l).Pairwise (· < ·) := by
  intro l
  induction l with
  | nil => intro _; simp [insortNodup]
  | cons y ys ih =>
    intro hp
    rcases List.pairwise_cons.mp hp with ⟨hy, hys⟩
    simp only [insortNodup]
    split
    · exact hp
    · rename_i hne
      split
      · rename_i hlt
        refine List.pairwise_cons.mpr ⟨?_, hp⟩
        intro b hb
        rcases List.mem_cons.mp hb with rfl | hb
        · exact hlt
        · exact lt_trans hlt (hy b hb)
      · rename_i hnlt
        have hyx : y < x := by
          rcases lt_trichotomy x y with h | h | h
          · exact absurd h hnlt
          · exact absurd h hne
          · exact h
        refine List.pairwise_cons.mpr ⟨?_, ih hys⟩
        intro b hb
        rcases (mem_insortNodup b x ys).mp hb with rfl | hb
        · exact hyx
        · exact hy b hb

theorem pairwise_sortedDedup_aux :
    ∀ (l acc : List String), acc.Pairwise (· < ·) →
      (l.foldl (fun acc x => insortNodup x acc) acc).Pairwise (· < ·) := by
  intro l
  induction l with
  | nil => intro acc h; exact h
  | cons x xs ih =>
    intro acc h
    exact ih (insortNodup x acc) (pairwise_insortNodup x acc h)

theorem pairwise_sortedDedup (l : List String) :
    (sortedDedup l).Pairwise (· < ·) :=
  pairwise_sortedDedup_aux l [] (by simp)

theorem nodup_sortedDedup (l : List String) : (sortedDedup l).Nodup :=
  (pairwise_sortedDedup l).imp ne_of_lt

theorem mem_sortedDedup_aux (a : String) :
    ∀ (l acc : List String),
      a ∈ l.foldl (fun acc x => insortNodup x acc) acc ↔ a ∈ acc ∨ a ∈ l := by
  intro l
  induction l with
  | nil => simp
  | cons x xs ih =>
    intro acc
    simp only [List.foldl_cons, ih, mem_insortNodup, List.mem_cons]
    tauto

theorem mem_sortedDedup (a : String) (l : List String) :
    a ∈ sortedDedup l ↔ a ∈ l := by
  simp [sortedDedup, mem_sortedDedup_aux]

theorem toFinset_sortedDedup (l : List String) :
    (sortedDedup l).toFinset = l.toFinset := by
  ext a
  simp [mem_sortedDedup]

theorem length_sortedDedup (l : List String) :
    (sortedDedup l).length = l.toFinset.card := by
  rw [← toFinset_sortedDedup, List.toFinset_card_of_nodup (nodup_sortedDedup l)]

theorem firstNctIn_filter (marker : String) :
    ∀ divs : List Division,
      firstNctIn (divs.filter fun d => strContains d.cls marker)
        = divs.findSome? fun d =>
            if strContains d.cls marker then findNCTStr d.txt else none := by
  intro divs
  induction divs with
  | nil => rfl
  | cons d ds ih =>
    by_cases hc : strContains d.cls marker
    · simp only [List.filter_cons, hc, if_pos, List.findSome?_cons]
      cases hf : findNCTStr d.txt with
      | some m => simp [firstNctIn, hf]
      | none => simp [firstNctIn, hf, ih]
    · have hcf : strContains d.cls marker = false := Bool.eq_false_iff.mpr hc
      simp only [List.filter_cons, List.findSome?_cons, hcf]
      simpa using ih

theorem nctRegexMatch_of_isNCT8 {s : String} (h : isNCT8 s = true) :
    nctRegexMatch s = true := by
  simp only [isNCT8, Bool.and_eq_true, beq_iff_eq] at h
  simp only [nctRegexMatch, Bool.and_eq_true, beq_iff_eq]
  refine ⟨⟨h.1.1, ?_⟩, h.2⟩
  have hne : s.toList.drop 3 ≠ [] := by
    intro he
    rw [he] at h
    simp at h
  simp [List.isEmpty_iff, hne]
  have h8 := h.1.2
  rw [List.length_drop] at h8
  have hsl : s.toList.length = s.length := rfl
  omega

theorem coerceRow_of_known {r : NctRow} {d : Date}
    (hp : r.pubDate = DateCell.known d) : coerceRow r = r := by
  cases r
  simp_all [coerceRow, coerceCell]

theorem maskRow_coerce {r : NctRow} (s e : Date) (hr : detailWf r) :
    maskRow s e (coerceRow r) = specFilterPred s e r := by
  rcases hr with ⟨hn, hd⟩
  cases hp : r.pubDate with
  | known d =>
    have hnm : nctRegexMatch r.nct = isNCT8 r.nct := by
      rcases hn with h | h
      · rw [h]; decide
      · rw [h]
        exact nctRegexMatch_of_isNCT8 h
    simp [maskRow, coerceRow, coerceCell, hp, cellNotna, cellGE, cellLE,
      specFilterPred, hnm, Bool.and_assoc]
  | pyNone =>
    simp [maskRow, coerceRow, coerceCell, hp, cellNotna, specFilterPred]
  | naT => exact absurd hp hd

theorem map_pid_process (fetch : String → Option PubmedHtml) :
    ∀ ids : List String,
      (ids.map fun pid =>
          match fetch pid with
          | some h => (⟨pid, nctFieldOf h, get_publication_date h⟩ : DetailRecord)
          | none => ⟨pid, "NCT Not Found", none⟩).map DetailRecord.pid = ids := by
  intro ids
  induction ids with
  | nil => rfl
  | cons x xs ih =>
    simp only [List.map_cons]
    cases fetch x <;> simpa using ih

/-! ## Claim theorems -/

/-- Claim C1 (counterexample): with an oracle whose fetch raises (network
error / timeout), the harvester does not return one record per accession
with an empty identifier list — the exception propagates and the run
aborts with an error. -/
theorem C1_harvester_cex :
    fetch_pubmed_ids_from_geo excGet ["GSE100"] = Except.error () := rfl

/-- Claim C1 (amended): for every accession list, if every fetch returns an
HTTP response (of any status code — the status is never inspected, so a
non-2xx response is a soft failure whose parsed body typically yields an
empty identifier list), the harvester returns exactly one CrossRefRecord
per accession, in order; but a fetch that raises propagates and aborts. -/
theorem C1_harvester_soft_failure (httpGet : String → FetchOutcome)
    (l : List String) (h : ∀ a ∈ l, httpGet a ≠ FetchOutcome.exc) :
    fetch_pubmed_ids_from_geo httpGet l = Except.ok (l.map (okRecordOf httpGet)) := by
  induction l with
  | nil => rfl
  | cons a rest ih =>
    have ha := h a (List.mem_cons_self a rest)
    have hrest := fun x hx => h x (List.mem_cons_of_mem a hx)
    simp only [fetch_pubmed_ids_from_geo, List.map_cons]
    cases hg : httpGet a with
    | exc => exact absurd hg ha
    | resp st hrefs =>
      simp only [fetch_pubmed_data, okRecordOf, hg]
      rw [ih hrest]

/-- Claim C1 (witness): a non-2xx response with no links is a soft failure
yielding one record with an empty identifier list. -/
theorem C1_harvester_witness :
    fetch_pubmed_ids_from_geo soft404Get ["GSE1"]
      = Except.ok [{ accession := "GSE1", pubmedID := "" }] :=
  (C1_harvester_soft_failure soft404Get ["GSE1"] (by decide)).trans (by rfl)

/-- Claim C2 (counterexample): `filter_nct` mutates its input frame — a row
whose `Publication_Date` is the Python `None` holds `NaT` afterwards. -/
theorem C2_filter_mutation_cex :
    (filter_nct [mutRow] ⟨2022, 1, 1⟩ ⟨2022, 12, 31⟩).1 ≠ [mutRow] := by
  decide

/-- Claim C2 (amended): the only mutation `filter_nct` performs on its input
is rewriting the `Publication_Date` column in place through the
`pd.to_datetime(...).dt.date` coercion; rows with a present date are left
unchanged, and no row is added, removed or reordered. -/
theorem C2_filter_in_place (df : List NctRow) (s e : Date) :
    (filter_nct df s e).1 = df.map coerceRow ∧
      (∀ r ∈ df, cellNotna r.pubDate = true → coerceRow r = r) ∧
      (filter_nct df s e).1.length = df.length := by
  refine ⟨rfl, ?_, by simp [filter_nct]⟩
  intro r _ hn
  cases hp : r.pubDate with
  | known d => exact coerceRow_of_known hp
  | pyNone => rw [hp] at hn; simp [cellNotna] at hn
  | naT => rw [hp] at hn; simp [cellNotna] at hn

/-- Claim C6: the trial-id extractor searches abstract-content regions, then
trial-registration regions, then the full page text, first match of the
`NCT`+8-digit pattern winning, and the detail record carries the sentinel
when none of the three searches match. -/
theorem C6_nct_priority :
    (∀ h : PubmedHtml, search_nct_in_abstract h = specNctChain h) ∧
    (∀ h : PubmedHtml, search_nct_in_abstract h = none →
      nctFieldOf h = "NCT Not Found") := by
  constructor
  · intro h
    simp only [search_nct_in_abstract, specNctChain, tierSearch, firstNctIn_filter]
  · intro h hnone
    simp [nctFieldOf, hnone]

/-- Claim C7: the Detail Extractor emits exactly one DetailRecord per unique
collected bibliographic identifier, and a failed page fetch yields the
sentinel trial id with an absent date while the loop continues. -/
theorem C7_detail_per_bibid :
    (∀ (fetch : String → Option PubmedHtml) (metadata : List CrossRefRecord),
        (process_pubmed_ids fetch metadata).length
          = (collectPubmedIds metadata).toFinset.card) ∧
    (∀ (fetch : String → Option PubmedHtml) (metadata : List CrossRefRecord),
        ∀ r ∈ process_pubmed_ids fetch metadata,
          fetch r.pid = none → r.nct = "NCT Not Found" ∧ r.pubDate = none) := by
  constructor
  · intro fetch metadata
    simp [process_pubmed_ids, length_sortedDedup]
  · intro fetch metadata r hr hf
    simp only [process_pubmed_ids, List.mem_map] at hr
    rcases hr with ⟨pid, hpid, rfl⟩
    cases hfp : fetch pid with
    | none => simp [hfp]
    | some hpage =>
      rw [hfp] at hf
      simp at hf
      rw [hfp] at hf
      exact absurd hf (by simp)

/-- Claim C8: accession-pattern extraction over raw text is idempotent as a
set update, duplicate-free, and yields exactly the expected set on the
scenario text. -/
theorem C8_accession_extraction :
    (∀ (s : Finset String) (t : String),
        updateAccessions (updateAccessions s t) t = updateAccessions s t) ∧
    (∀ t : String, (extractAccessions t).toList.Nodup) ∧
    extractAccessions "GSE123 ... GSE123 ... GSE45678" = {"GSE123", "GSE45678"} := by
  refine ⟨?_, fun t => Finset.nodup_toList _, by decide⟩
  intro s t
  simp [updateAccessions, Finset.union_assoc]

/-- Claim C9: the Detail Extractor processes identifiers, and emits their
records, in strictly ascending order of the deduplicated identifier set. -/
theorem C9_detail_sorted_order :
    (∀ (fetch : String → Option PubmedHtml) (metadata : List CrossRefRecord),
        (process_pubmed_ids fetch metadata).map DetailRecord.pid
          = sortedDedup (collectPubmedIds metadata)) ∧
    (∀ l : List String, (sortedDedup l).Pairwise (· < ·)) := by
  constructor
  · intro fetch metadata
    exact map_pid_process fetch (sortedDedup (collectPubmedIds metadata))
  · exact pairwise_sortedDedup

/-- Claim C10: the harvester preserves submission order — when the run
completes, the i-th returned record carries the i-th input accession. -/
theorem C10_submission_order (httpGet : String → FetchOutcome) :
    ∀ (l : List String) (rs : List CrossRefRecord),
      fetch_pubmed_ids_from_geo httpGet l = Except.ok rs →
      rs.map CrossRefRecord.accession = l := by
  intro l
  induction l with
  | nil =>
    intro rs h
    simp only [fetch_pubmed_ids_from_geo] at h
    cases h
    rfl
  | cons a rest ih =>
    intro rs h
    simp only [fetch_pubmed_ids_from_geo] at h
    cases hfd : fetch_pubmed_data httpGet a with
    | error e => rw [hfd] at h; cases h
    | ok r =>
      rw [hfd] at h
      cases hrec : fetch_pubmed_ids_from_geo httpGet rest with
      | error e => rw [hrec] at h; cases h
      | ok rs2 =>
        rw [hrec] at h
        cases h
        have hacc : r.accession = a := by
          simp only [fetch_pubmed_data] at hfd
          cases hg : httpGet a with
          | exc => rw [hg] at hfd; cases hfd
          | resp st hrefs =>
            rw [hg] at hfd
            cases hfd
            rfl
        simp [hacc, ih rs2 hrec]

/-- Claim C10 (witness): a concrete two-accession run returns records in
submission order. -/
theorem C10_submission_order_witness :
    ∃ rs, fetch_pubmed_ids_from_geo okLinkGet ["GSE1", "GSE2"] = Except.ok rs ∧
      rs.map CrossRefRecord.accession = ["GSE1", "GSE2"] :=
  ⟨_, rfl, C10_submission_order okLinkGet ["GSE1", "GSE2"] _ rfl⟩

/-- Claim C3: on well-formed detail records, `filter_nct` returns exactly the
records whose date is present and inside the inclusive range and whose trial
id matches the strict prefix+8-digit pattern; the sentinel never matches and
missing dates are excluded. -/
theorem C3_filter_contract (df : List NctRow) (s e : Date)
    (hwf : ∀ r ∈ df, detailWf r) :
    (filter_nct df s e).2 = df.filter (specFilterPred s e) := by
  simp only [filter_nct]
  induction df with
  | nil => rfl
  | cons r rest ih =>
    have hr := hwf r (List.mem_cons_self r rest)
    have hrest := fun x hx => hwf x (List.mem_cons_of_mem r hx)
    simp only [List.map_cons, List.filter_cons, maskRow_coerce s e hr]
    cases hsp : specFilterPred s e r with
    | false => simpa using ih hrest
    | true =>
      have hd : ∃ d, r.pubDate = DateCell.known d := by
        cases hp : r.pubDate with
        | known d => exact ⟨d, rfl⟩
        | pyNone => rw [specFilterPred, hp] at hsp; cases hsp
        | naT => rw [specFilterPred, hp] at hsp; cases hsp
      rcases hd with ⟨d, hd⟩
      simp [coerceRow_of_known hd, ih hrest]

/-- Claim C3 (witness): the spec's scenario record is kept by the 2022 range
and dropped by the 2023 range. -/
theorem C3_filter_contract_witness :
    (filter_nct [wfRow1] ⟨2022, 1, 1⟩ ⟨2022, 12, 31⟩).2 = [wfRow1] ∧
      (filter_nct [wfRow1] ⟨2023, 1, 1⟩ ⟨2023, 12, 31⟩).2 = [] := by
  have hwf : ∀ r ∈ [wfRow1], detailWf r := by
    intro r hr
    simp only [List.mem_singleton] at hr
    subst hr
    exact ⟨Or.inr (by decide), by decide⟩
  exact ⟨(C3_filter_contract [wfRow1] ⟨2022, 1, 1⟩ ⟨2022, 12, 31⟩ hwf).trans
      (by decide),
    (C3_filter_contract [wfRow1] ⟨2023, 1, 1⟩ ⟨2023, 12, 31⟩ hwf).trans
      (by decide)⟩

/-- Claim C5: the publication date is determined by matching a year-month-day
pattern first, else a bare four-digit year, parsed as a full date or as
January 1st of that year respectively, and is absent otherwise; with the
spec's three scenario fragments evaluated. -/
theorem C5_publication_date :
    (∀ h : PubmedHtml, get_publication_date h = pubDateSpec h) ∧
    get_publication_date ⟨[], some "2021 Jan 5", ""⟩ = some ⟨2021, 1, 5⟩ ∧
    get_publication_date ⟨[], some "2019", ""⟩ = some ⟨2019, 1, 1⟩ ∧
    get_publication_date ⟨[], some "no date here", ""⟩ = none := by
  refine ⟨?_, by decide, by decide, by decide⟩
  intro h
  simp only [get_publication_date, pubDateSpec]
  cases hc : h.citTxt with
  | none => simp [hc]
  | some t =>
    simp only [hc]
    cases hymd : scanFirst matchYMDAt t.toList with
    | some m =>
      simp only [hymd, Option.orElse]
      cases hp : parseYMDL m with
      | some dt => simp [hp]
      | none =>
        simp only [hp]
        obtain ⟨l2, hl2⟩ := scanFirst_some hymd
        exact parseY4L_of_long (matchYMDAt_some hl2)
    | none =>
      simp only [hymd, Option.orElse]
      cases hy4 : scanFirst matchY4At t.toList with
      | none => simp
      | some m =>
        simp only [hy4]
        obtain ⟨l2, hl2⟩ := scanFirst_some hy4
        obtain ⟨hlen, hdig⟩ := matchY4At_some hl2
        rw [parseYMDL_of_len4 hlen]
        simp [parseY4L, hlen, hdig]

/-- Invariant of the discovery pagination loop under a search oracle that
reports a fixed total `T` and returns record ids exactly while the offset is
below `T`: starting below `T` with enough fuel, the loop fetches the pages
at offsets `retstart, retstart + P, ...` and issues one search call per
page, the last call breaking on `retstart >= total_count`. -/
theorem fetch_all_geo_loop_aux (search : Nat → List String × Nat)
    (efetch : List String → String) (P T : Nat)
    (hsr : ∀ o, (search o).2 = T ∧ ((search o).1.isEmpty = true ↔ T ≤ o))
    (hP : 0 < P) :
    ∀ (fuel retstart : Nat) (acc : Finset String),
      retstart < T → T ≤ retstart + fuel * P →
      ∃ accF, fetch_all_geo_accessions search efetch P fuel retstart acc
        = some (accF,
            (List.range ((T - retstart - 1) / P + 1)).map (fun i => retstart + i * P),
            (T - retstart - 1) / P + 1) := by
  intro fuel
  induction fuel with
  | zero => intro retstart acc h1 h2; omega
  | succ fuel ih =>
    intro retstart acc h1 h2
    obtain ⟨htot, hemp⟩ := hsr retstart
    have hne : (search retstart).1.isEmpty = false := by
      rw [Bool.eq_false_iff]
      intro he
      have := hemp.mp he
      omega
    simp only [fetch_all_geo_accessions]
    rcases hs : search retstart with ⟨ids, total⟩
    rw [hs] at htot hne
    simp only at htot hne
    simp only [hne, Bool.false_eq_true, if_false, htot]
    by_cases hle : T ≤ retstart + P
    · refine ⟨acc ∪ fetch_geo_accession_details (efetch ids) ids, ?_⟩
      rw [if_pos hle]
      have hdiv : (T - retstart - 1) / P = 0 := Nat.div_eq_of_lt (by omega)
      simp [hdiv, show List.range 1 = [0] from rfl]
    · have hmul : (fuel + 1) * P = fuel * P + P := by rw [Nat.succ_mul]
      have hlt2 : retstart + P < T := by omega
      have hfuel2 : T ≤ retstart + P + fuel * P := by omega
      obtain ⟨accF, hF⟩ := ih (retstart + P)
        (acc ∪ fetch_geo_accession_details (efetch ids) ids) hlt2 hfuel2
      have hx : P ≤ T - retstart - 1 := by omega
      have hdiv : (T - retstart - 1) / P = (T - retstart - 1 - P) / P + 1 := by
        rw [Nat.div_eq_sub_div hP hx]
      have harg : T - retstart - 1 - P = T - (retstart + P) - 1 := by omega
      rw [harg] at hdiv
      have hcount : (T - retstart - 1) / P + 1
          = ((T - (retstart + P) - 1) / P + 1) + 1 := by rw [hdiv]
      have hlist : (List.range (((T - (retstart + P) - 1) / P + 1) + 1)).map
            (fun i => retstart + i * P)
          = retstart :: (List.range ((T - (retstart + P) - 1) / P + 1)).map
              (fun i => retstart + P + i * P) := by
        rw [List.range_succ_eq_map, List.map_cons, List.map_map]
        congr 1
        · omega
        · apply List.map_congr_left
          intro i _
          simp only [Function.comp]
          rw [Nat.succ_mul]
          omega
      refine ⟨accF, ?_⟩
      rw [if_neg hle, hF]
      simp only [hcount, hlist]

/-- Claim C4: with a search oracle reporting total `T` with page size `P`
(ids returned exactly while the offset is below `T`), the discovery engine
fetches ceil(T/P) pages at offsets `0, P, 2P, ...` and issues exactly
ceil(T/P) search calls (so no extra call after the last page); a zero total
stops after a single empty search with no page fetched. -/
theorem C4_pagination (search : Nat → List String × Nat)
    (efetch : List String → String) (P T fuel : Nat) (acc : Finset String)
    (hsr : ∀ o, (search o).2 = T ∧ ((search o).1.isEmpty = true ↔ T ≤ o))
    (hP : 0 < P) (hfuelpos : 0 < fuel) (hfuel : T ≤ fuel * P) :
    (0 < T → ∃ accF,
        fetch_all_geo_accessions search efetch P fuel 0 acc
          = some (accF, (List.range ((T - 1) / P + 1)).map (fun i => i * P),
              (T - 1) / P + 1)) ∧
    (T = 0 → fetch_all_geo_accessions search efetch P fuel 0 acc
        = some (acc, [], 1)) := by
  constructor
  · intro hT
    obtain ⟨accF, hF⟩ := fetch_all_geo_loop_aux search efetch P T hsr hP fuel 0 acc
      hT (by simpa using hfuel)
    refine ⟨accF, ?_⟩
    simpa using hF
  · intro hT0
    subst hT0
    obtain ⟨htot, hemp⟩ := hsr 0
    have he : (search 0).1.isEmpty = true := hemp.mpr (by omega)
    cases fuel with
    | zero => omega
    | succ fuel =>
      simp only [fetch_all_geo_accessions]
      rcases hs : search 0 with ⟨ids, total⟩
      rw [hs] at he
      simp only at he
      simp [he]

/-- Claim C4 (witness): total count 25 with page size 10 gives exactly three
pages, at offsets 0, 10 and 20, and three search calls (no fourth). -/
theorem C4_pagination_witness :
    ∃ accF, fetch_all_geo_accessions geoSearch25 geoEfetchEmpty 10 3 0 ∅
      = some (accF, [0, 10, 20], 3) := by
  have hsr : ∀ o, (geoSearch25 o).2 = 25
      ∧ ((geoSearch25 o).1.isEmpty = true ↔ 25 ≤ o) := by
    intro o
    refine ⟨rfl, ?_⟩
    by_cases h : o < 25
    · simp only [geoSearch25, if_pos h]
      simp [List.isEmpty_iff]
      omega
    · simp only [geoSearch25, if_neg h]
      simp
      omega
  obtain ⟨accF, hF⟩ := (C4_pagination geoSearch25 geoEfetchEmpty 10 25 3 ∅ hsr
    (by omega) (by omega) (by omega)).1 (by omega)
  exact ⟨accF, hF.trans (by rfl)⟩
